import Mathlib

/-!
Verification development for the Hit-score-api repository.

The definitions below are a shallow embedding of the Python core:
the scoring engine (`ranking_calculator.py`), the tiered cache
(`data_cache.py`, `daily_cache.py`), the prediction ledger
(`data_cache.py` / `simple_rankings.py`), reconciliation
(`at_bat_verification.py`) and the integrity guard (`data_backup.py`).
Machine floats in the source are modelled as exact rationals (`ℚ`);
Python dicts are modelled as association lists in insertion order.
-/

/-- Python `round(x, 3)`: round half to even at the third decimal place
(the rounding mode used by Python's builtin `round`). -/
def roundHalfEven3 (q : ℚ) : ℚ :=
  let s : ℚ := q * 1000
  let n : ℤ := ⌊s⌋
  let frac : ℚ := s - (n : ℚ)
  let r : ℤ :=
    if 1/2 < frac then n + 1
    else if frac < 1/2 then n
    else if n % 2 = 0 then n else n + 1
  (r : ℚ) / 1000

/-- Pitcher handedness as compared in the source (`pitcher_hand == 'L'`,
anything else behaves as right-handed). -/
inductive Hand
  | left
  | right
deriving DecidableEq

/-- Batting-average splits dict of a player (`player_splits`); a missing
key is `none` (the source supplies `self.league_avg_ba` as `dict.get` default). -/
structure Splits where
  vs_left : Option ℚ
  vs_right : Option ℚ
deriving DecidableEq

/-- One input row to `RankingCalculator.calculate_hit_score`.  `pitcher_oba = none`
models the `pitcher_oba` key being absent or its value being `None`;
`pitcher_hand = none` models the key being absent (`row.get('pitcher_hand', 'R')`);
`player_splits = none` models the key being absent or not a dict. -/
structure Row where
  player_id : ℕ
  hits_last_5 : ℕ
  hits_last_10 : ℕ
  hits_last_20 : ℕ
  pitcher_oba : Option ℚ
  pitcher_hand : Option Hand
  player_splits : Option Splits
deriving DecidableEq

/-- `self.league_avg_ba = 0.238` in `RankingCalculator.__init__`. -/
def league_avg_ba : ℚ := 238/1000

/-- `self.avg_hits_per_game = 0.75` in `RankingCalculator.__init__`. -/
def avg_hits_per_game : ℚ := 3/4

/-- Hotness factor of `calculate_hit_score`:
`(hits_last_5 + hits_last_10 + hits_last_20) / (35 * 0.75)`. -/
def hotness_factor (row : Row) : ℚ :=
  ((row.hits_last_5 : ℚ) + row.hits_last_10 + row.hits_last_20) / (35 * avg_hits_per_game)

/-- Pitcher factor of `calculate_hit_score`:
`row.get('pitcher_oba', self.league_avg_ba)` (also defaulting a `None`
value to `self.league_avg_ba`) divided by `self.league_avg_ba`. -/
def pitcher_factor (row : Row) : ℚ :=
  row.pitcher_oba.getD league_avg_ba / league_avg_ba

/-- Split batting average selected by `calculate_hit_score`: `vs_left` against a
left-handed pitcher, `vs_right` otherwise, with `self.league_avg_ba` as the
default for a missing key or a non-dict `player_splits`. -/
def split_avg (row : Row) : ℚ :=
  match row.player_splits with
  | none => league_avg_ba
  | some sp =>
    match row.pitcher_hand.getD Hand.right with
    | Hand.left => sp.vs_left.getD league_avg_ba
    | Hand.right => sp.vs_right.getD league_avg_ba

/-- Splits factor of `calculate_hit_score`: the selected split average divided
by `self.league_avg_ba`. -/
def splits_factor (row : Row) : ℚ :=
  split_avg row / league_avg_ba

/-- `RankingCalculator.calculate_hit_score`: the product of the three factors,
rounded to three decimals (`round(hit_score, 3)`). -/
def calculate_hit_score (row : Row) : ℚ :=
  roundHalfEven3 (hotness_factor row * pitcher_factor row * splits_factor row)

/-- The spec's worked example: last_5 = 3, last_10 = 6, last_20 = 10,
split average 0.300 against a right-handed pitcher, pitcher OBA 0.270. -/
def exampleRow : Row :=
  { player_id := 1
    hits_last_5 := 3
    hits_last_10 := 6
    hits_last_20 := 10
    pitcher_oba := some (270/1000)
    pitcher_hand := some Hand.right
    player_splits := some { vs_left := none, vs_right := some (300/1000) } }

/-- C1: for every input row with a present pitcher OBA, the hit score equals
Hotness × PitcherFactor × SkillFactor rounded to three decimals, where
Hotness = (hits_last_5 + hits_last_10 + hits_last_20) / 26.25,
PitcherFactor = pitcher OBA / 0.238, and SkillFactor = the batting-average
split against the pitcher's hand / 0.238. -/
theorem C1_hit_score_formula (row : Row) (oba : ℚ)
    (h : row.pitcher_oba = some oba) :
    calculate_hit_score row =
      roundHalfEven3
        ((((row.hits_last_5 : ℚ) + row.hits_last_10 + row.hits_last_20) / (2625/100))
          * (oba / (238/1000)) * (split_avg row / (238/1000))) := by
  simp [calculate_hit_score, hotness_factor, pitcher_factor, splits_factor,
    league_avg_ba, avg_hits_per_game, h]
  norm_num

/-- C1 witness: on the spec's worked example the formula yields exactly 1.035. -/
theorem C1_hit_score_formula_witness :
    exampleRow.pitcher_oba = some (270/1000) ∧
    calculate_hit_score exampleRow = 1035/1000 := by
  refine ⟨rfl, (C1_hit_score_formula exampleRow (270/1000) rfl).trans ?_⟩
  norm_num [roundHalfEven3, split_avg, exampleRow, league_avg_ba]

/-- Row used by the C7 claim: the `pitcher_oba` key is missing. -/
def c7Row : Row :=
  { player_id := 2
    hits_last_5 := 3
    hits_last_10 := 6
    hits_last_20 := 10
    pitcher_oba := none
    pitcher_hand := some Hand.right
    player_splits := some { vs_left := none, vs_right := some (300/1000) } }

/-- C7 counterexample: for a row whose pitcher OBA field is missing,
`RankingCalculator.calculate_hit_score` computes a PitcherFactor of exactly 1
(the missing value defaults to the 0.238 league average), not 0.250/0.238. -/
theorem C7_counterexample :
    c7Row.pitcher_oba = none ∧
    pitcher_factor c7Row = 1 ∧
    (250/238 : ℚ) ≠ 1 := by
  refine ⟨rfl, ?_, by norm_num⟩
  norm_num [pitcher_factor, c7Row, league_avg_ba]

/-- C7 (amended): for every row whose pitcher OBA field is missing (or `None`),
the scoring engine's PitcherFactor equals 0.238/0.238 = 1 exactly — the missing
input defaults to the neutral league-average baseline, never to zero. -/
theorem C7_missing_oba_neutral (row : Row) (h : row.pitcher_oba = none) :
    pitcher_factor row = 1 ∧ pitcher_factor row ≠ 0 := by
  rw [pitcher_factor, h]
  norm_num [league_avg_ba]

/-- C7 witness: the amended theorem applied to the concrete missing-OBA row. -/
theorem C7_missing_oba_neutral_witness :
    c7Row.pitcher_oba = none ∧
    (pitcher_factor c7Row = 1 ∧ pitcher_factor c7Row ≠ 0) :=
  ⟨rfl, C7_missing_oba_neutral c7Row rfl⟩

/-- A wall-clock instant, already converted to the reference timezone (CST):
a calendar day index and the minute of that day.  Python `datetime` comparison
is lexicographic on (day, minute); `.date()` comparison compares `day`. -/
structure CSTTime where
  day : ℕ
  minute : ℕ
deriving DecidableEq

/-- The 3:00 AM boundary expressed in minutes of the day. -/
def boundaryMinute : ℕ := 180

/-- `DailyCacheManager._is_daily_cache_expired`: `true` when no last refresh
is recorded; otherwise, when `now`'s calendar date is strictly later than the
last refresh's calendar date, the result of comparing `now` against 3:00 AM of
`now`'s own date (`current_time.replace(hour=3, ...)`); otherwise `false`. -/
def is_daily_cache_expired (last_update : Option CSTTime) (now : CSTTime) : Bool :=
  match last_update with
  | none => true
  | some lu =>
    if lu.day < now.day then decide (boundaryMinute ≤ now.minute) else false

/-- Modelled from the claim's words, for comparison with the code: the slow
partition is expired iff no refresh was ever recorded, or the first 3:00 AM
boundary following the last refresh's calendar date (3:00 AM of the next day)
has been reached, comparing instants lexicographically. -/
def slowBoundaryCrossed (last_update : Option CSTTime) (now : CSTTime) : Bool :=
  match last_update with
  | none => true
  | some lu =>
    decide (lu.day + 1 < now.day ∨ (now.day = lu.day + 1 ∧ boundaryMinute ≤ now.minute))

/-- C3 counterexample: with a last refresh two days old (day 0, 10:00) and the
current time 2:00 AM of day 2, the first 3:00 AM boundary after the refresh
(day 1, 3:00 AM) has long been crossed, yet `_is_daily_cache_expired` returns
`false` because it compares against 3:00 AM of the *current* day. -/
theorem C3_counterexample :
    slowBoundaryCrossed (some ⟨0, 600⟩) ⟨2, 120⟩ = true ∧
    is_daily_cache_expired (some ⟨0, 600⟩) ⟨2, 120⟩ = false := by
  constructor <;> decide

/-- C3 (amended): `_is_daily_cache_expired` returns `true` iff no refresh was
ever recorded, or `now`'s calendar date is strictly later than the last
refresh's calendar date *and* `now`'s time of day has reached 3:00 AM.  In
particular a refresh two or more days old is still reported fresh before
3:00 AM of the current day. -/
theorem C3_daily_expiry_iff (last_update : Option CSTTime) (now : CSTTime) :
    is_daily_cache_expired last_update now = true ↔
      (last_update = none ∨
        ∃ lu, last_update = some lu ∧ lu.day < now.day ∧ boundaryMinute ≤ now.minute) := by
  cases last_update with
  | none => simp [is_daily_cache_expired]
  | some lu =>
    simp only [is_daily_cache_expired, Option.some.injEq, reduceCtorEq, false_or]
    by_cases h : lu.day < now.day
    · rw [if_pos h]
      simp only [decide_eq_true_eq]
      constructor
      · intro hm
        exact ⟨lu, rfl, h, hm⟩
      · rintro ⟨x, hx, _, h2⟩
        cases hx
        exact h2
    · rw [if_neg h]
      constructor
      · intro hf
        cases hf
      · rintro ⟨x, hx, h1, _⟩
        cases hx
        exact absurd h1 h

/-- A prediction ledger entry, as written by `_auto_record_predictions` and
updated by reconciliation.  Outcome fields start as `None`; `rank` is present
only in top-3 records (and in `simple_rankings`' ledger entries). -/
structure Entry where
  player_name : String
  team : String
  position : String
  hit_score : ℚ
  batting_avg : ℚ
  opposing_pitcher : String
  pitcher_hand : String
  predicted_date : String
  actual_hits : Option ℕ
  actual_at_bats : Option ℕ
  got_hit : Option Bool
  rank : Option ℕ
deriving DecidableEq

/-- One day's predictions: the JSON object mapping player-id keys to entries,
in insertion order. -/
abbrev DayPredictions := List (ℕ × Entry)

/-- The prediction ledger (`data/prediction_history.json`): a date-keyed
mapping to day predictions, in insertion order. -/
abbrev Ledger := List (String × DayPredictions)

/-- One row of the ranked table as consumed by `_auto_record_predictions`. -/
structure RTableRow where
  player_id : ℕ
  player_name : String
  team : String
  position : String
  hit_score : ℚ
  batting_avg : ℚ
  opposing_pitcher : String
  pitcher_hand : String
deriving DecidableEq

/-- The ledger entry snapshot built from a ranked row by
`DataCache._auto_record_predictions` (outcome fields `None`). -/
def entryOfRow (today : String) (r : RTableRow) : Entry :=
  { player_name := r.player_name
    team := r.team
    position := r.position
    hit_score := r.hit_score
    batting_avg := r.batting_avg
    opposing_pitcher := r.opposing_pitcher
    pitcher_hand := r.pitcher_hand
    predicted_date := today
    actual_hits := none
    actual_at_bats := none
    got_hit := none
    rank := none }

/-- `DataCache._auto_record_predictions` (the guard and write are identical in
`SimpleMLBRankings._auto_record_predictions`): if an entry already exists for
today's date, return the ledger unchanged; otherwise select the rows with
`hit_score >= min_score` and, when that selection is non-empty, append today's
snapshot to the ledger. -/
def auto_record_predictions (today : String) (rankings : List RTableRow)
    (min_score : ℚ) (predictions_data : Ledger) : Ledger :=
  if (predictions_data.lookup today).isSome then predictions_data
  else
    let elite := rankings.filter (fun r => min_score ≤ r.hit_score)
    if elite.isEmpty then predictions_data
    else predictions_data ++ [(today, elite.map (fun r => (r.player_id, entryOfRow today r)))]

/-- C2: recording daily predictions is idempotent per calendar day — whenever
the ledger already has an entry for today's date, `_auto_record_predictions`
leaves it unchanged, whatever ranked table (and threshold) it is called with. -/
theorem C2_record_idempotent (today : String) (rankings : List RTableRow)
    (min_score : ℚ) (L : Ledger) (h : (L.lookup today).isSome) :
    auto_record_predictions today rankings min_score L = L := by
  simp [auto_record_predictions, h]

/-- Concrete ledger used by the C2 witness: a single day already recorded. -/
def c2Ledger : Ledger :=
  [("2025-06-01", [(660271, entryOfRow "2025-06-01"
      { player_id := 660271, player_name := "A", team := "LAD", position := "DH"
        hit_score := 3, batting_avg := 3/10, opposing_pitcher := "B"
        pitcher_hand := "R" })])]

/-- A ranked table different from the one recorded in `c2Ledger`. -/
def c2OtherTable : List RTableRow :=
  [{ player_id := 545361, player_name := "C", team := "NYY", position := "CF"
     hit_score := 4, batting_avg := 31/100, opposing_pitcher := "D"
     pitcher_hand := "L" }]

/-- C2 witness: a second call for the same date with a different ranked table
leaves the ledger unchanged. -/
theorem C2_record_idempotent_witness :
    (c2Ledger.lookup "2025-06-01").isSome = true ∧
    auto_record_predictions "2025-06-01" c2OtherTable (5/2) c2Ledger = c2Ledger :=
  ⟨rfl, C2_record_idempotent "2025-06-01" c2OtherTable (5/2) c2Ledger rfl⟩

/-- The `all_elite_players` flag of `DataBackupManager.verify_data_integrity`:
it is cleared as soon as some ledger entry (on any recorded date) has
`pred.get('hit_score', 0) < 2.0`. -/
def all_elite_players (predictions : Ledger) : Bool :=
  predictions.all (fun dp => dp.2.all (fun pe => !decide (pe.2.hit_score < 2)))

/-- A ledger entry with hit score 2.3: below the elite threshold 2.5, yet not
flagged by the integrity check. -/
def c8Entry : Entry :=
  { player_name := "E", team := "BOS", position := "1B"
    hit_score := 23/10, batting_avg := 28/100, opposing_pitcher := "F"
    pitcher_hand := "R", predicted_date := "2025-06-01"
    actual_hits := none, actual_at_bats := none, got_hit := none, rank := none }

/-- C8 counterexample: a ledger whose only entry scores 2.3 — strictly below
the elite threshold 2.5 — is reported clean (`all_elite_players = true`),
because the guard's cutoff in the code is 2.0, not 2.5. -/
theorem C8_counterexample :
    c8Entry.hit_score < 5/2 ∧
    all_elite_players [("2025-06-01", [(100, c8Entry)])] = true := by
  constructor
  · norm_num [c8Entry]
  · simp [all_elite_players, c8Entry]
    norm_num

/-- C8 (amended): the integrity guard's data-quality flag reports a violation
(`all_elite_players = false`) exactly when some recorded ledger entry has a hit
score below 2.0 — the guard re-verifies the ledger against a 2.0 cutoff, not
the 2.5 elite entry threshold. -/
theorem C8_all_elite_iff (predictions : Ledger) :
    all_elite_players predictions = false ↔
      ∃ d dp, (d, dp) ∈ predictions ∧ ∃ p e, (p, e) ∈ dp ∧ e.hit_score < 2 := by
  rw [← Bool.not_eq_true]
  simp only [all_elite_players, List.all_eq_true, not_forall]
  constructor
  · rintro ⟨⟨d, dp⟩, hmem, hnot⟩
    refine ⟨d, dp, hmem, ?_⟩
    simp only [List.all_eq_true, not_forall] at hnot
    obtain ⟨⟨p, e⟩, hpe, hne⟩ := hnot
    refine ⟨p, e, hpe, ?_⟩
    simpa using hne
  · rintro ⟨d, dp, hmem, p, e, hpe, hlt⟩
    refine ⟨(d, dp), hmem, ?_⟩
    simp only [List.all_eq_true, not_forall]
    exact ⟨(p, e), hpe, by simpa using hlt⟩

/-- The cache-file state owned by `DataCache`: `none` models a missing or
unreadable `data/rankings_cache.json`, `some l` a stored ranked table `l`. -/
structure CacheState where
  cache : Option (List RTableRow)
deriving DecidableEq

/-- `DataCache._load_from_cache`: returns the stored table only when the file
exists and the stored table is non-empty (`if not rankings_df.empty`). -/
def load_from_cache (s : CacheState) : Option (List RTableRow) :=
  match s.cache with
  | none => none
  | some l => if l.isEmpty then none else some l

/-- `DataCache._fetch_fresh_data`.  The `provider` argument is the outcome of
the retried provider calls plus `calculate_rankings`, collapsed into one value:
`some r` when the fetch succeeded and produced table `r`, `none` when every
attempt raised or returned no hitter stats.  On a non-empty fresh table the
cache file is overwritten and the table returned; on every failure path the
source falls back to `_load_from_cache` and leaves the cache file untouched.
(The prediction-ledger write `_auto_record_predictions` performed on the
success path is modelled separately by `auto_record_predictions`; it does not
touch the cache file or the returned table.) -/
def fetch_fresh_data (s : CacheState) (provider : Option (List RTableRow)) :
    Option (List RTableRow) × CacheState :=
  match provider with
  | some r => if r.isEmpty then (load_from_cache s, s) else (some r, ⟨some r⟩)
  | none => (load_from_cache s, s)

/-- `DataCache.get_rankings`: refresh when forced or expired, returning the
fresh data when the fetch produced any; otherwise fall back to the cache;
otherwise attempt one more fetch; otherwise return the empty table. -/
def get_rankings (s : CacheState) (expired force_refresh : Bool)
    (provider : Option (List RTableRow)) : List RTableRow × CacheState :=
  let step1 := if force_refresh || expired then fetch_fresh_data s provider else (none, s)
  match step1 with
  | (some fresh, s1) => (fresh, s1)
  | (none, s1) =>
    match load_from_cache s1 with
    | some cached => (cached, s1)
    | none =>
      match fetch_fresh_data s1 provider with
      | (some fresh, s2) => (fresh, s2)
      | (none, s2) => ([], s2)

/-- C4: once the cache holds a non-empty payload from a successful refresh,
every call to `get_rankings` — with any expiry flags and any provider outcome,
including total failure — returns a non-empty table, and leaves the cache
holding a non-empty payload (a failed refresh never clears or replaces
previously good cached data). -/
theorem C4_monotonic_fallback (s : CacheState) (expired force_refresh : Bool)
    (provider : Option (List RTableRow)) (p : List RTableRow)
    (hc : s.cache = some p) (hp : p ≠ []) :
    (get_rankings s expired force_refresh provider).1 ≠ [] ∧
    ∃ q, (get_rankings s expired force_refresh provider).2.cache = some q ∧ q ≠ [] := by
  have hload : load_from_cache s = some p := by
    simp [load_from_cache, hc, List.isEmpty_iff, hp]
  have hfetch : ∀ o s', fetch_fresh_data s provider = (o, s') →
      (o = some p ∧ s' = s) ∨ (∃ r, r ≠ [] ∧ o = some r ∧ s' = ⟨some r⟩) := by
    intro o s' h
    cases provider with
    | none =>
      simp [fetch_fresh_data, hload] at h
      exact Or.inl ⟨h.1.symm, h.2.symm⟩
    | some r =>
      by_cases hr : r.isEmpty
      · simp [fetch_fresh_data, hr, hload] at h
        exact Or.inl ⟨h.1.symm, h.2.symm⟩
      · simp [fetch_fresh_data, hr] at h
        exact Or.inr ⟨r, by simpa [List.isEmpty_iff] using hr, h.1.symm, h.2.symm⟩
  unfold get_rankings
  by_cases hflag : (force_refresh || expired) = true
  · rw [hflag]
    simp only [if_true]
    obtain ⟨o, s', hos⟩ : ∃ o s', fetch_fresh_data s provider = (o, s') :=
      ⟨_, _, rfl⟩
    rw [hos]
    rcases hfetch o s' hos with ⟨ho, hs'⟩ | ⟨r, hr, ho, hs'⟩
    · subst ho; subst hs'
      exact ⟨hp, p, hc, hp⟩
    · subst ho; subst hs'
      exact ⟨hr, r, rfl, hr⟩
  · rw [Bool.not_eq_true] at hflag
    rw [hflag]
    simp only [Bool.false_eq_true, if_false, hload]
    exact ⟨hp, p, hc, hp⟩

/-- Concrete populated cache state for the C4 witness. -/
def c4State : CacheState :=
  ⟨some [{ player_id := 1, player_name := "G", team := "ATL", position := "SS"
           hit_score := 3, batting_avg := 3/10, opposing_pitcher := "H"
           pitcher_hand := "R" }]⟩

/-- C4 witness: the cache is populated, the partition is expired and the
provider fails, yet the call returns a non-empty table and keeps the cache. -/
theorem C4_monotonic_fallback_witness :
    c4State.cache.isSome = true ∧
    ((get_rankings c4State true false none).1 ≠ [] ∧
      ∃ q, (get_rankings c4State true false none).2.cache = some q ∧ q ≠ []) :=
  ⟨rfl, C4_monotonic_fallback c4State true false none _ rfl (by simp)⟩

/-- Outcome of the box-score lookup for one player on one date.
`found ab h` — a boxscore listing the player with `ab` at-bats and `h` hits;
`absent` — the schedule and boxscores were retrieved but listed the player in
no game; `fail` — a non-200 response, a timeout, or an exception. -/
inductive BoxOutcome
  | found (at_bats hits : ℕ)
  | absent
  | fail
deriving DecidableEq

/-- The dict returned by `verify_player_at_bats`.  The `absent`/`fail` returns
in the source carry no `got_hit` key; it is modelled as `false` there (it is
read only when `played` is true). -/
structure Verification where
  played : Bool
  at_bats : ℕ
  hits : ℕ
  got_hit : Bool
deriving DecidableEq

/-- `verify_player_at_bats`: a found player reports
`played = at_bats > 0` and `got_hit = (hits > 0 if at_bats > 0 else False)`;
a player found in no boxscore, and every failure (non-200 schedule or boxscore
response, timeout, exception), reports `played = False` with zero counts. -/
def verify_player_at_bats : BoxOutcome → Verification
  | .found ab h => ⟨decide (0 < ab), ab, h, if 0 < ab then decide (0 < h) else false⟩
  | .absent => ⟨false, 0, 0, false⟩
  | .fail => ⟨false, 0, 0, false⟩

/-- The per-day loop of `update_predictions_with_at_bats`: keep each entry
whose verification has `played` true, filling its outcome fields from the
verification; drop every other entry. -/
def verifyDayPredictions (box : ℕ → BoxOutcome) (preds : DayPredictions) :
    DayPredictions :=
  preds.filterMap (fun pe =>
    let v := verify_player_at_bats (box pe.1)
    if v.played then
      some (pe.1, { pe.2 with
        actual_hits := some v.hits
        actual_at_bats := some v.at_bats
        got_hit := some v.got_hit })
    else none)

/-- `update_predictions_with_at_bats` at the ledger level: when the date has no
recorded predictions the ledger is untouched; otherwise that date's day
predictions are replaced in place by the verified subset. -/
def update_predictions_with_at_bats (box : ℕ → BoxOutcome) (game_date : String)
    (L : Ledger) : Ledger :=
  match L.lookup game_date with
  | none => L
  | some preds =>
    L.map (fun d => if d.1 = game_date then (d.1, verifyDayPredictions box preds) else d)

/-- C5: reconciliation keeps exactly the entries whose box-score at-bats are
positive — an entry survives with its player id iff the box score lists the
player with `at_bats > 0`, and the surviving entry is the original one with
`actual_hits`, `actual_at_bats` filled from the box score and `got_hit` true
iff `hits > 0`; every entry whose player has zero at-bats (or no box-score
listing) is removed from the day's ledger. -/
theorem C5_reconciliation_keeps_positive_at_bats (box : ℕ → BoxOutcome)
    (preds : DayPredictions) (pid : ℕ) (e' : Entry) :
    (pid, e') ∈ verifyDayPredictions box preds ↔
      ∃ e, (pid, e) ∈ preds ∧ ∃ ab h, box pid = .found ab h ∧ 0 < ab ∧
        e' = { e with
          actual_hits := some h
          actual_at_bats := some ab
          got_hit := some (decide (0 < h)) } := by
  simp only [verifyDayPredictions, List.mem_filterMap]
  constructor
  · rintro ⟨⟨p, e⟩, hmem, heq⟩
    simp only at heq
    cases hbox : box p with
    | found ab h =>
      rw [hbox] at heq
      by_cases hab : 0 < ab
      · simp only [verify_player_at_bats, hab, decide_eq_true_eq, if_true,
          Option.some.injEq, Prod.mk.injEq] at heq
        obtain ⟨hp, he⟩ := heq
        subst hp
        exact ⟨e, hmem, ab, h, hbox, hab, he.symm⟩
      · simp [verify_player_at_bats, hab] at heq
    | absent =>
      rw [hbox] at heq
      simp [verify_player_at_bats] at heq
    | fail =>
      rw [hbox] at heq
      simp [verify_player_at_bats] at heq
  · rintro ⟨e, hmem, ab, h, hbox, hab, he⟩
    refine ⟨(pid, e), hmem, ?_⟩
    simp only
    rw [hbox]
    simp [verify_player_at_bats, hab, he]

/-- C10: every failure of the box-score lookup (non-200 response, timeout,
exception) is reported as `played = False` with zero at-bats — byte-for-byte
the same verification dict as for a player who genuinely did not appear in any
boxscore — so a reconciled entry whose lookup errored is removed from the
day's ledger, and a fully failing box-score provider leaves the reconciled
day's predictions empty (every entry deleted, for any date with recorded
predictions). -/
theorem lookup_map_replaceDay (d : String) (newv : DayPredictions) (L : Ledger)
    (h : (L.lookup d).isSome = true) :
    (L.map (fun x => if x.1 = d then (x.1, newv) else x)).lookup d = some newv := by
  induction L with
  | nil => simp [List.lookup] at h
  | cons hd tl ih =>
    obtain ⟨k, v⟩ := hd
    by_cases hk : k = d
    · subst hk
      simp only [List.map_cons, eq_self_iff_true, ite_true]
      simp [List.lookup]
    · have hbeq : (d == k) = false := by
        simp only [beq_eq_false_iff_ne, ne_eq]
        intro hdk
        exact hk hdk.symm
      simp only [List.map_cons]
      rw [if_neg (by simpa using hk)]
      simp only [List.lookup, hbeq] at h ⊢
      exact ih h

theorem C10_lookup_failure_indistinguishable (preds : DayPredictions)
    (game_date : String) (L : Ledger) :
    verify_player_at_bats .fail =
      { played := false, at_bats := 0, hits := 0, got_hit := false } ∧
    verify_player_at_bats .fail = verify_player_at_bats .absent ∧
    verifyDayPredictions (fun _ => .fail) preds = [] ∧
    (∀ dp, L.lookup game_date = some dp →
      (update_predictions_with_at_bats (fun _ => .fail) game_date L).lookup game_date
        = some []) := by
  refine ⟨rfl, rfl, ?_, ?_⟩
  · simp [verifyDayPredictions, verify_player_at_bats]
  · intro dp hdp
    rw [update_predictions_with_at_bats, hdp]
    have hv : verifyDayPredictions (fun _ => BoxOutcome.fail) dp = [] := by
      simp [verifyDayPredictions, verify_player_at_bats]
    show (L.map (fun x =>
        if x.1 = game_date then (x.1, verifyDayPredictions (fun _ => BoxOutcome.fail) dp)
        else x)).lookup game_date = some []
    rw [hv]
    exact lookup_map_replaceDay game_date [] L (by simp [hdp])

/-- Day predictions used by the C10 witness. -/
def c10Preds : DayPredictions :=
  [(605141, { player_name := "J", team := "HOU", position := "2B"
              hit_score := 27/10, batting_avg := 29/100, opposing_pitcher := "K"
              pitcher_hand := "L", predicted_date := "2025-06-01"
              actual_hits := none, actual_at_bats := none, got_hit := none
              rank := none })]

/-- C10 witness: a one-day ledger reconciled against a provider that always
fails ends up with that day's predictions empty. -/
theorem C10_lookup_failure_indistinguishable_witness :
    (([("2025-06-01", c10Preds)] : Ledger).lookup "2025-06-01" = some c10Preds) ∧
    (update_predictions_with_at_bats (fun _ => .fail) "2025-06-01"
        [("2025-06-01", c10Preds)]).lookup "2025-06-01" = some [] :=
  ⟨rfl, (C10_lookup_failure_indistinguishable c10Preds "2025-06-01"
      [("2025-06-01", c10Preds)]).2.2.2 c10Preds rfl⟩

/-- One row of the `hitter_stats` DataFrame consumed by
`RankingCalculator.calculate_rankings`. -/
structure Hitter where
  player_id : ℕ
  team_id : ℕ
  player_name : String
  team : String
  position : String
  hits_last_5 : ℕ
  hits_last_10 : ℕ
  hits_last_20 : ℕ
  games_played : ℕ
deriving DecidableEq

/-- One value of the `pitcher_matchups` dict consumed by `calculate_rankings`. -/
structure Matchup where
  opposing_pitcher : String
  pitcher_oba : ℚ
  pitcher_hand : Option Hand
  opponent_team : String
  is_home : Bool
deriving DecidableEq

/-- The row-building loop of `calculate_rankings`: a hitter whose team has no
matchup gets the placeholder with `opposing_pitcher = 'TBD'` and is skipped
(so a missing matchup is `none` here), a hitter whose real matchup still says
`'TBD'` is skipped, and a hitter for whom `get_player_splits` returns `None`
is skipped; every other hitter yields the scoring row with the matchup's
`pitcher_oba` and `pitcher_hand` and the fetched splits. -/
def joinRows (hitter_stats : List Hitter) (pitcher_matchups : List (ℕ × Matchup))
    (get_player_splits : ℕ → Option Splits) : List Row :=
  hitter_stats.filterMap (fun h =>
    match pitcher_matchups.lookup h.team_id with
    | none => none
    | some m =>
      if m.opposing_pitcher = "TBD" then none
      else
        match get_player_splits h.player_id with
        | none => none
        | some sp =>
          some { player_id := h.player_id
                 hits_last_5 := h.hits_last_5
                 hits_last_10 := h.hits_last_10
                 hits_last_20 := h.hits_last_20
                 pitcher_oba := some m.pitcher_oba
                 pitcher_hand := m.pitcher_hand
                 player_splits := some sp })

/-- Descending hit-score order on scored rows. -/
def scoreDescRel (a b : Row × ℚ) : Prop := b.2 ≤ a.2

instance : DecidableRel scoreDescRel :=
  fun a b => inferInstanceAs (Decidable (b.2 ≤ a.2))

instance : IsTotal (Row × ℚ) scoreDescRel :=
  ⟨fun a b => le_total b.2 a.2⟩

instance : IsTrans (Row × ℚ) scoreDescRel :=
  ⟨fun _ _ _ h1 h2 => le_trans h2 h1⟩

/-- `RankingCalculator.calculate_rankings`: build the joined rows, score each
with `calculate_hit_score`, and sort by hit score descending
(`sort_values('hit_score', ascending=False)`, which applies no secondary sort
key; the sort is modelled as a stable descending sort). -/
def calculate_rankings (hitter_stats : List Hitter)
    (pitcher_matchups : List (ℕ × Matchup))
    (get_player_splits : ℕ → Option Splits) : List (Row × ℚ) :=
  List.insertionSort scoreDescRel
    ((joinRows hitter_stats pitcher_matchups get_player_splits).map
      (fun r => (r, calculate_hit_score r)))

/-- Two hitters with identical stats on the same team, listed with the larger
player id first. -/
def c9hitterA : Hitter :=
  { player_id := 5, team_id := 1, player_name := "M", team := "SEA", position := "RF"
    hits_last_5 := 3, hits_last_10 := 6, hits_last_20 := 10, games_played := 50 }

/-- Second hitter for the C9 counterexample, same stats, smaller player id. -/
def c9hitterB : Hitter :=
  { player_id := 2, team_id := 1, player_name := "N", team := "SEA", position := "LF"
    hits_last_5 := 3, hits_last_10 := 6, hits_last_20 := 10, games_played := 50 }

/-- Matchup for the C9 counterexample. -/
def c9matchup : Matchup :=
  { opposing_pitcher := "P", pitcher_oba := 270/1000, pitcher_hand := some Hand.right
    opponent_team := "TEX", is_home := true }

/-- Splits shared by both C9 hitters. -/
def c9splits : Splits := { vs_left := none, vs_right := some (300/1000) }

/-- The ranked table computed on the C9 counterexample input. -/
def c9Out : List (Row × ℚ) :=
  calculate_rankings [c9hitterA, c9hitterB] [(1, c9matchup)] (fun _ => some c9splits)

/-- C9 counterexample: the two rows carry equal hit scores, yet the output
lists player 5 before player 2 — `calculate_rankings` applies no player-id
tiebreak, so equal-score rows are not in ascending player-id order. -/
theorem C9_counterexample :
    c9Out.map (fun p => p.1.player_id) = [5, 2] ∧
    c9Out.map (fun p => p.2) = [1035/1000, 1035/1000] := by
  have hscore : ∀ pid : ℕ, calculate_hit_score
      { player_id := pid, hits_last_5 := 3, hits_last_10 := 6, hits_last_20 := 10
        pitcher_oba := some (270/1000), pitcher_hand := some Hand.right
        player_splits := some c9splits } = 1035/1000 := by
    intro pid
    norm_num [calculate_hit_score, hotness_factor, pitcher_factor, splits_factor,
      split_avg, c9splits, league_avg_ba, avg_hits_per_game, roundHalfEven3]
  have hjoin : joinRows [c9hitterA, c9hitterB] [(1, c9matchup)] (fun _ => some c9splits) =
      [{ player_id := 5, hits_last_5 := 3, hits_last_10 := 6, hits_last_20 := 10
         pitcher_oba := some (270/1000), pitcher_hand := some Hand.right
         player_splits := some c9splits },
       { player_id := 2, hits_last_5 := 3, hits_last_10 := 6, hits_last_20 := 10
         pitcher_oba := some (270/1000), pitcher_hand := some Hand.right
         player_splits := some c9splits }] := by
    simp [joinRows, c9hitterA, c9hitterB, c9matchup, List.lookup]
  rw [c9Out, calculate_rankings, hjoin] at *
  simp only [List.map_cons, List.map_nil, hscore]
  simp [List.insertionSort, List.orderedInsert, scoreDescRel]

/-- C9 (amended): the ranked table returned by `calculate_rankings` is sorted
in descending order of hit score and is a permutation of the scored joined
rows; no player-id tiebreak is applied, so the relative order of equal-score
rows is whatever the underlying sort leaves (input order, for a stable sort),
not an ascending player-id order. -/
theorem C9_sorted_descending (hitter_stats : List Hitter)
    (pitcher_matchups : List (ℕ × Matchup))
    (get_player_splits : ℕ → Option Splits) :
    (calculate_rankings hitter_stats pitcher_matchups get_player_splits).Sorted
      (fun a b => b.2 ≤ a.2) ∧
    List.Perm (calculate_rankings hitter_stats pitcher_matchups get_player_splits)
      ((joinRows hitter_stats pitcher_matchups get_player_splits).map
        (fun r => (r, calculate_hit_score r))) :=
  ⟨List.sorted_insertionSort scoreDescRel _, List.perm_insertionSort scoreDescRel _⟩

/-- Python `max(items, key=lambda x: x[1]['hit_score'])` scanning left to
right from a first candidate: a later element replaces the current best only
when strictly greater, so the first maximal element wins. -/
def pickBestFrom (b : ℕ × Entry) : List (ℕ × Entry) → ℕ × Entry
  | [] => b
  | x :: xs =>
    if b.2.hit_score < x.2.hit_score then pickBestFrom x xs else pickBestFrom b xs

/-- `max` over a possibly-empty dict of remaining players. -/
def pickBest : List (ℕ × Entry) → Option (ℕ × Entry)
  | [] => none
  | x :: xs => some (pickBestFrom x xs)

theorem pickBestFrom_mem (b : ℕ × Entry) (l : List (ℕ × Entry)) :
    pickBestFrom b l = b ∨ pickBestFrom b l ∈ l := by
  induction l generalizing b with
  | nil => exact Or.inl rfl
  | cons x xs ih =>
    rw [pickBestFrom]
    by_cases h : b.2.hit_score < x.2.hit_score
    · rw [if_pos h]
      rcases ih x with h1 | h1
      · refine Or.inr ?_
        rw [h1]
        exact List.mem_cons_self x xs
      · exact Or.inr (List.mem_cons_of_mem x h1)
    · rw [if_neg h]
      rcases ih b with h1 | h1
      · exact Or.inl h1
      · exact Or.inr (List.mem_cons_of_mem x h1)

theorem pickBestFrom_le (b : ℕ × Entry) (l : List (ℕ × Entry)) :
    b.2.hit_score ≤ (pickBestFrom b l).2.hit_score ∧
    ∀ x ∈ l, x.2.hit_score ≤ (pickBestFrom b l).2.hit_score := by
  induction l generalizing b with
  | nil => exact ⟨le_refl _, fun x hx => absurd hx (List.not_mem_nil x)⟩
  | cons x xs ih =>
    rw [pickBestFrom]
    by_cases h : b.2.hit_score < x.2.hit_score
    · rw [if_pos h]
      obtain ⟨h1, h2⟩ := ih x
      refine ⟨le_trans (le_of_lt h) h1, fun y hy => ?_⟩
      rcases List.mem_cons.mp hy with hy | hy
      · exact hy ▸ h1
      · exact h2 y hy
    · rw [if_neg h]
      obtain ⟨h1, h2⟩ := ih b
      refine ⟨h1, fun y hy => ?_⟩
      rcases List.mem_cons.mp hy with hy | hy
      · exact hy ▸ le_trans (le_of_not_lt h) h1
      · exact h2 y hy

theorem pickBest_mem {l : List (ℕ × Entry)} {p : ℕ × Entry}
    (h : pickBest l = some p) : p ∈ l := by
  cases l with
  | nil => cases h
  | cons x xs =>
    rw [pickBest, Option.some.injEq] at h
    subst h
    rcases pickBestFrom_mem x xs with h1 | h1
    · rw [h1]
      exact List.mem_cons_self x xs
    · exact List.mem_cons_of_mem x h1

theorem pickBest_le {l : List (ℕ × Entry)} {p : ℕ × Entry}
    (h : pickBest l = some p) : ∀ x ∈ l, x.2.hit_score ≤ p.2.hit_score := by
  cases l with
  | nil => cases h
  | cons x xs =>
    rw [pickBest, Option.some.injEq] at h
    subst h
    intro y hy
    obtain ⟨h1, h2⟩ := pickBestFrom_le x xs
    rcases List.mem_cons.mp hy with hy | hy
    · subst hy
      exact h1
    · exact h2 y hy

theorem pickBest_eq_none_iff {l : List (ℕ × Entry)} :
    pickBest l = none ↔ l = [] := by
  cases l with
  | nil => simp [pickBest]
  | cons x xs => simp [pickBest]

/-- The `updated_top_3[player_id]['rank'] = rank` step: copy a dict entry and
assign it a rank. -/
def setRank (pe : ℕ × Entry) (r : ℕ) : ℕ × Entry :=
  (pe.1, { pe.2 with rank := some r })

theorem setRank_fst (pe : ℕ × Entry) (r : ℕ) : (setRank pe r).1 = pe.1 := rfl

theorem setRank_rank (pe : ℕ × Entry) (r : ℕ) : (setRank pe r).2.rank = some r := rfl

theorem setRank_score (pe : ℕ × Entry) (r : ℕ) :
    (setRank pe r).2.hit_score = pe.2.hit_score := rfl

/-- The survivors loop of `update_top_3_after_verification`: walk the current
top-3 dict in stored order; each player still present in the verified dict is
re-emitted with its verified entry and the next rank, starting from `r`. -/
def keepSurvivors (verified : List (ℕ × Entry)) :
    List (ℕ × Entry) → ℕ → List (ℕ × Entry)
  | [], _ => []
  | pe :: rest, r =>
    match verified.lookup pe.1 with
    | some e => setRank (pe.1, e) r :: keepSurvivors verified rest (r + 1)
    | none => keepSurvivors verified rest r

theorem keepSurvivors_keys (verified : List (ℕ × Entry)) (cur : List (ℕ × Entry))
    (r : ℕ) :
    (keepSurvivors verified cur r).map Prod.fst =
      (cur.map Prod.fst).filter (fun pid => (verified.lookup pid).isSome) := by
  induction cur generalizing r with
  | nil => rfl
  | cons pe rest ih =>
    rw [keepSurvivors]
    cases hlk : verified.lookup pe.1 with
    | none =>
      simp only [List.map_cons, List.filter_cons, hlk, Option.isSome_none,
        Bool.false_eq_true, if_false]
      exact ih r
    | some e =>
      simp only [List.map_cons, List.filter_cons, hlk, Option.isSome_some, if_true]
      exact congrArg (pe.1 :: ·) (ih (r + 1))

theorem keepSurvivors_ranks (verified : List (ℕ × Entry)) (cur : List (ℕ × Entry))
    (r : ℕ) :
    (keepSurvivors verified cur r).map (fun pe => pe.2.rank) =
      (List.range (keepSurvivors verified cur r).length).map (fun i => some (r + i)) := by
  induction cur generalizing r with
  | nil => rfl
  | cons pe rest ih =>
    rw [keepSurvivors]
    cases hlk : verified.lookup pe.1 with
    | none => exact ih r
    | some e =>
      simp only [List.map_cons, List.length_cons, List.range_succ_eq_map,
        List.map_map]
      rw [ih (r + 1)]
      rw [Nat.add_zero]
      refine congrArg (some r :: ·) (List.map_congr_left ?_)
      intro i _
      simp only [Function.comp_apply]
      exact congrArg some (by omega)

theorem keepSurvivors_length_le (verified : List (ℕ × Entry))
    (cur : List (ℕ × Entry)) (r : ℕ) :
    (keepSurvivors verified cur r).length ≤ cur.length := by
  induction cur generalizing r with
  | nil => exact le_refl 0
  | cons pe rest ih =>
    rw [keepSurvivors]
    cases hlk : verified.lookup pe.1 with
    | none => exact le_trans (ih r) (Nat.le_succ _)
    | some e => simpa using ih (r + 1)

theorem mem_keys_of_lookup_isSome {l : List (ℕ × Entry)} {a : ℕ}
    (h : (l.lookup a).isSome = true) : a ∈ l.map Prod.fst := by
  induction l with
  | nil => simp [List.lookup] at h
  | cons pe rest ih =>
    obtain ⟨k, v⟩ := pe
    by_cases hk : a = k
    · exact hk ▸ List.mem_cons_self _ _
    · have hbeq : (a == k) = false := by simpa using hk
      rw [List.lookup] at h
      rw [hbeq] at h
      exact List.mem_cons_of_mem _ (ih h)

/-- The backfill while-loop of `update_top_3_after_verification`: while fewer
than 3 slots are filled and the verified dict is strictly larger than the
filled dict, take the highest-scoring verified player not yet placed and
append it with the next rank; stop when no remaining player exists.  The loop
body runs at most three times (each pass grows `acc` and the guard requires
`acc.length < 3`), so fuel 3 is exact. -/
def fillTop3 (verified : List (ℕ × Entry)) :
    List (ℕ × Entry) → ℕ → List (ℕ × Entry)
  | acc, 0 => acc
  | acc, fuel + 1 =>
    if acc.length < 3 ∧ acc.length < verified.length then
      match pickBest (verified.filter (fun pe => decide (pe.1 ∉ acc.map Prod.fst))) with
      | some pe =>
        fillTop3 verified (acc ++ [setRank pe (acc.length + 1)]) fuel
      | none => acc
    else acc

/-- `update_top_3_after_verification`: keep the verified survivors of the
current top 3 in stored order with ranks from 1, then backfill by descending
hit score from the remaining verified players. -/
def update_top_3_after_verification (current verified : List (ℕ × Entry)) :
    List (ℕ × Entry) :=
  fillTop3 verified (keepSurvivors verified current 1) 3

theorem fillTop3_shape (verified : List (ℕ × Entry)) (fuel : ℕ) :
    ∀ acc, ∃ t, fillTop3 verified acc fuel = acc ++ t := by
  induction fuel with
  | zero =>
    intro acc
    exact ⟨[], (List.append_nil acc).symm⟩
  | succ fuel ih =>
    intro acc
    rw [fillTop3]
    by_cases hg : acc.length < 3 ∧ acc.length < verified.length
    · rw [if_pos hg]
      cases hpb : pickBest (verified.filter (fun pe => decide (pe.1 ∉ acc.map Prod.fst))) with
      | none => exact ⟨[], (List.append_nil acc).symm⟩
      | some pe =>
        dsimp only
        obtain ⟨t, ht⟩ := ih (acc ++ [setRank pe (acc.length + 1)])
        refine ⟨setRank pe (acc.length + 1) :: t, ?_⟩
        rw [ht, List.append_assoc]
        rfl
    · rw [if_neg hg]
      exact ⟨[], (List.append_nil acc).symm⟩

theorem fillTop3_ranks (verified : List (ℕ × Entry)) (fuel : ℕ) :
    ∀ acc, acc.map (fun pe => pe.2.rank) =
        (List.range acc.length).map (fun i => some (i + 1)) →
      (fillTop3 verified acc fuel).map (fun pe => pe.2.rank) =
        (List.range (fillTop3 verified acc fuel).length).map (fun i => some (i + 1)) := by
  induction fuel with
  | zero =>
    intro acc h
    rw [fillTop3]
    exact h
  | succ fuel ih =>
    intro acc h
    rw [fillTop3]
    by_cases hg : acc.length < 3 ∧ acc.length < verified.length
    · rw [if_pos hg]
      cases hpb : pickBest (verified.filter (fun pe => decide (pe.1 ∉ acc.map Prod.fst))) with
      | none => exact h
      | some pe =>
        apply ih
        rw [List.map_append, List.length_append, h]
        simp only [List.map_cons, List.map_nil, List.length_cons, List.length_nil]
        rw [List.range_succ, List.map_append]
        rfl
    · rw [if_neg hg]
      exact h

theorem remaining_ne_nil (verified acc : List (ℕ × Entry))
    (hvn : (verified.map Prod.fst).Nodup)
    (hlen : acc.length < verified.length) :
    verified.filter (fun pe => decide (pe.1 ∉ acc.map Prod.fst)) ≠ [] := by
  intro hempty
  have hallmem : ∀ pe ∈ verified, pe.1 ∈ acc.map Prod.fst := by
    intro pe hpe
    by_contra hni
    have hmem : pe ∈ verified.filter (fun pe => decide (pe.1 ∉ acc.map Prod.fst)) :=
      List.mem_filter.mpr ⟨hpe, by simpa using hni⟩
    rw [hempty] at hmem
    exact absurd hmem (List.not_mem_nil pe)
  have hsub2 : verified.map Prod.fst ⊆ acc.map Prod.fst := by
    intro k hk
    obtain ⟨pe, hpe, hk⟩ := List.mem_map.mp hk
    exact hk ▸ hallmem pe hpe
  have hsp := (hvn.subperm hsub2).length_le
  rw [List.length_map, List.length_map] at hsp
  omega

theorem fillTop3_length (verified : List (ℕ × Entry))
    (hvn : (verified.map Prod.fst).Nodup) (fuel : ℕ) :
    ∀ acc, (acc.map Prod.fst).Nodup →
      (∀ k ∈ acc.map Prod.fst, k ∈ verified.map Prod.fst) →
      acc.length ≤ min 3 verified.length →
      min 3 verified.length ≤ acc.length + fuel →
      (fillTop3 verified acc fuel).length = min 3 verified.length := by
  induction fuel with
  | zero =>
    intro acc _ _ h1 h2
    rw [fillTop3]
    omega
  | succ fuel ih =>
    intro acc hnd hsub h1 h2
    rw [fillTop3]
    by_cases hg : acc.length < 3 ∧ acc.length < verified.length
    · rw [if_pos hg]
      have hne := remaining_ne_nil verified acc hvn hg.2
      cases hpb : pickBest (verified.filter (fun pe => decide (pe.1 ∉ acc.map Prod.fst))) with
      | none => exact absurd (pickBest_eq_none_iff.mp hpb) hne
      | some pe =>
        have hpe_f := List.mem_filter.mp (pickBest_mem hpb)
        have hnotin : pe.1 ∉ acc.map Prod.fst := by simpa using hpe_f.2
        have hin : pe.1 ∈ verified.map Prod.fst := List.mem_map.mpr ⟨pe, hpe_f.1, rfl⟩
        apply ih
        · rw [List.map_append]
          simp only [List.map_cons, List.map_nil]
          rw [List.nodup_append]
          exact ⟨hnd, List.nodup_singleton _, by simpa using hnotin⟩
        · intro k hk
          rw [List.map_append] at hk
          rcases List.mem_append.mp hk with hk | hk
          · exact hsub k hk
          · simp only [List.map_cons, List.map_nil, List.mem_singleton] at hk
            exact hk ▸ hin
        · rw [List.length_append, List.length_singleton]
          omega
        · rw [List.length_append, List.length_singleton]
          omega
    · rw [if_neg hg]
      omega

theorem fillTop3_dominance (verified : List (ℕ × Entry)) (fuel : ℕ) :
    ∀ acc i y, acc.length ≤ i →
      (fillTop3 verified acc fuel)[i]? = some y →
      ∀ q ∈ verified,
        q.1 ∉ ((fillTop3 verified acc fuel).take i).map Prod.fst →
        q.2.hit_score ≤ y.2.hit_score := by
  induction fuel with
  | zero =>
    intro acc i y hle hy _ _ _
    rw [fillTop3, List.getElem?_eq_none hle] at hy
    cases hy
  | succ fuel ih =>
    intro acc i y hle hy q hq hnot
    rw [fillTop3] at hy hnot
    by_cases hg : acc.length < 3 ∧ acc.length < verified.length
    · rw [if_pos hg] at hy hnot
      cases hpb : pickBest (verified.filter (fun pe => decide (pe.1 ∉ acc.map Prod.fst))) with
      | none =>
        rw [hpb] at hy
        rw [show (match (none : Option (ℕ × Entry)) with
            | some pe => fillTop3 verified (acc ++ [setRank pe (acc.length + 1)]) fuel
            | none => acc) = acc from rfl] at hy
        rw [List.getElem?_eq_none hle] at hy
        cases hy
      | some pe =>
        rw [hpb] at hy hnot
        rw [show (match (some pe : Option (ℕ × Entry)) with
            | some pe => fillTop3 verified (acc ++ [setRank pe (acc.length + 1)]) fuel
            | none => acc)
          = fillTop3 verified (acc ++ [setRank pe (acc.length + 1)]) fuel from rfl] at hy hnot
        by_cases hieq : i = acc.length
        · subst hieq
          obtain ⟨t, ht⟩ := fillTop3_shape verified fuel (acc ++ [setRank pe (acc.length + 1)])
          rw [ht] at hy hnot
          have hylen : acc.length < (acc ++ [setRank pe (acc.length + 1)]).length := by
            rw [List.length_append, List.length_singleton]
            omega
          rw [List.append_assoc] at hy
          rw [List.getElem?_append_right (le_refl acc.length)] at hy
          rw [Nat.sub_self] at hy
          have hyx : y = setRank pe (acc.length + 1) := by
            simpa using hy.symm
        
          have htake : ((acc ++ [setRank pe (acc.length + 1)] ++ t).take acc.length) = acc.take acc.length := by
            rw [List.append_assoc]
            exact List.take_append_of_le_length (le_refl acc.length)
          rw [htake, List.take_length] at hnot
          have hqf : q ∈ verified.filter (fun pe => decide (pe.1 ∉ acc.map Prod.fst)) :=
            List.mem_filter.mpr ⟨hq, by simpa using hnot⟩
          have := pickBest_le hpb q hqf
          rw [hyx, setRank_score]
          exact this
        · have hle2 : (acc ++ [setRank pe (acc.length + 1)]).length ≤ i := by
            rw [List.length_append, List.length_singleton]
            omega
          exact ih (acc ++ [setRank pe (acc.length + 1)]) i y hle2 hy q hq hnot
    · rw [if_neg hg] at hy
      rw [List.getElem?_eq_none hle] at hy
      cases hy

/-- C6: after reconciliation, the recomputed top 3 keeps every surviving
member of the previous top 3 first, in their original relative order; rank
labels are reassigned 1, 2, ... in output order; the result has exactly
min(3, number of verified players) entries (filling stops when 3 slots are
filled or the verified pool is exhausted); and each backfilled slot holds a
hit score at least that of every verified player not yet placed, so the
remaining slots are filled by descending hit score from the remaining
verified pool.  Hypotheses: the stored top 3 has at most 3 entries and both
dicts have distinct keys. -/
theorem C6_top3_recompute (current verified : List (ℕ × Entry))
    (hc3 : current.length ≤ 3)
    (hcn : (current.map Prod.fst).Nodup)
    (hvn : (verified.map Prod.fst).Nodup) :
    (((update_top_3_after_verification current verified).take
        ((current.map Prod.fst).filter
          (fun pid => (verified.lookup pid).isSome)).length).map Prod.fst =
      (current.map Prod.fst).filter (fun pid => (verified.lookup pid).isSome)) ∧
    ((update_top_3_after_verification current verified).map (fun pe => pe.2.rank) =
      (List.range (update_top_3_after_verification current verified).length).map
        (fun i => some (i + 1))) ∧
    ((update_top_3_after_verification current verified).length
      = min 3 verified.length) ∧
    (∀ i y, ((current.map Prod.fst).filter
          (fun pid => (verified.lookup pid).isSome)).length ≤ i →
      (update_top_3_after_verification current verified)[i]? = some y →
      ∀ q ∈ verified,
        q.1 ∉ ((update_top_3_after_verification current verified).take i).map Prod.fst →
        q.2.hit_score ≤ y.2.hit_score) := by
  have hkeys : (keepSurvivors verified current 1).map Prod.fst =
      (current.map Prod.fst).filter (fun pid => (verified.lookup pid).isSome) :=
    keepSurvivors_keys verified current 1
  have hslen : (keepSurvivors verified current 1).length =
      ((current.map Prod.fst).filter (fun pid => (verified.lookup pid).isSome)).length := by
    rw [← hkeys, List.length_map]
  have hSnd : ((keepSurvivors verified current 1).map Prod.fst).Nodup := by
    rw [hkeys]
    exact hcn.filter _
  have hSsub : ∀ k ∈ (keepSurvivors verified current 1).map Prod.fst,
      k ∈ verified.map Prod.fst := by
    intro k hk
    rw [hkeys] at hk
    have hm := List.mem_filter.mp hk
    exact mem_keys_of_lookup_isSome (by simpa using hm.2)
  have hSlen3 : (keepSurvivors verified current 1).length ≤ 3 :=
    le_trans (keepSurvivors_length_le verified current 1) hc3
  have hSlenv : (keepSurvivors verified current 1).length ≤ verified.length := by
    have hsp := (hSnd.subperm hSsub).length_le
    rw [List.length_map, List.length_map] at hsp
    exact hsp
  have hr : update_top_3_after_verification current verified =
      fillTop3 verified (keepSurvivors verified current 1) 3 := rfl
  refine ⟨?_, ?_, ?_, ?_⟩
  · obtain ⟨t, ht⟩ := fillTop3_shape verified 3 (keepSurvivors verified current 1)
    rw [hr, ht, ← hslen, List.take_left, hkeys]
  · rw [hr]
    apply fillTop3_ranks
    rw [keepSurvivors_ranks verified current 1]
    apply List.map_congr_left
    intro i _
    exact congrArg some (by omega)
  · rw [hr]
    apply fillTop3_length verified hvn 3 (keepSurvivors verified current 1) hSnd hSsub
    · omega
    · omega
  · intro i y hle hy q hq hnot
    rw [hr] at hy hnot
    exact fillTop3_dominance verified 3 (keepSurvivors verified current 1) i y
      (by omega) hy q hq hnot

/-- Entry template for the C6 witness. -/
def c6e (score : ℚ) : Entry :=
  { player_name := "Q", team := "T", position := "C", hit_score := score
    batting_avg := 1/4, opposing_pitcher := "O", pitcher_hand := "R"
    predicted_date := "2025-06-01", actual_hits := some 1, actual_at_bats := some 3
    got_hit := some true, rank := none }

/-- Verified pool for the C6 witness: the old rank-2 player (id 12) is gone. -/
def c6Verified : List (ℕ × Entry) :=
  [(11, c6e 4), (13, c6e 3), (14, c6e (28/10))]

/-- Previous top 3 for the C6 witness. -/
def c6Current : List (ℕ × Entry) :=
  [(11, c6e 4), (12, c6e (32/10)), (13, c6e 3)]

/-- C6 witness: the theorem applied to a concrete reconciled day in which the
old rank-2 pick did not play. -/
theorem C6_top3_recompute_witness :
    c6Current.length ≤ 3 ∧ (c6Current.map Prod.fst).Nodup ∧
      (c6Verified.map Prod.fst).Nodup ∧
      (update_top_3_after_verification c6Current c6Verified).length
        = min 3 c6Verified.length :=
  ⟨by decide, by decide, by decide,
    (C6_top3_recompute c6Current c6Verified (by decide) (by decide) (by decide)).2.2.1⟩
